import Mathlib

/-!
Verification of the abbreviation-tracking core of the Sublime Text Emmet
plugin (`src/abbreviation.py`), shallowly embedded in Lean.

Positions are character offsets (`Nat`).  Document text is a `List Char`.
External collaborators (the grammar library, syntax classifier and
settings) are passed in as explicit inputs.  Python code that may raise
an exception is embedded as an `Option`-returning function where `none`
marks the raised exception.
-/

/-- The closing-bracket characters, `pairs.values()` in the source:
`'}'`, `']'`, `')'`. -/
def is_closer (c : Char) : Bool :=
  c = '\x7d' || c = ']' || c = ')'

/-- The `pairs` dict of the source: maps an opening bracket to its closer. -/
def pairClose (c : Char) : Option Char :=
  if c = '\x7b' then some '\x7d'
  else if c = '[' then some ']'
  else if c = '(' then some ')'
  else none

/-- A line-break character, the class `[\n\r]` of the source regex. -/
def is_line_break (c : Char) : Bool :=
  c = '\n' || c = '\r'

/-- Python ASCII whitespace class `\s`: space, tab, LF, CR, FF, VT. -/
def is_space_char (c : Char) : Bool :=
  c = ' ' || c = '\t' || c = '\n' || c = '\r' || c = '\x0b' || c = '\x0c'

/-- ASCII letter. -/
def is_alpha (c : Char) : Bool :=
  ('a' ≤ c && c ≤ 'z') || ('A' ≤ c && c ≤ 'Z')

/-- The word-boundary character class of `re_word_bound`: `[\s>;"\']`. -/
def is_word_bound_char (c : Char) : Bool :=
  is_space_char c || c = '>' || c = ';' || c = '"' || c = '\''

/-- The abbreviation-start class of `re_word_bound`: `[a-zA-Z.#!@\[\(]`. -/
def is_abbr_start (c : Char) : Bool :=
  is_alpha c || c = '.' || c = '#' || c = '!' || c = '@' || c = '[' || c = '('

/-- The JSX abbreviation-start class of `re_jsx_abbr_start`: `[a-zA-Z.#\[\(]`. -/
def is_jsx_abbr_start (c : Char) : Bool :=
  is_alpha c || c = '.' || c = '#' || c = '[' || c = '('

/-- Modelled from the spec: `emmet_sublime.JSX_PREFIX` (module not under
`src/`), the fixed one-character JSX prefix marker; the spec's JSX scenario
uses the marker `/` of length 1. -/
def jsxMarker : Char := '/'

/-- A Sublime `Region`: a pair of positions `a`, `b`. -/
structure Region where
  a : Nat
  b : Nat
deriving DecidableEq

/-- Sublime `Region.begin()`: the smaller endpoint. -/
def Region.begin (r : Region) : Nat := min r.a r.b

/-- Sublime `Region.end()`: the larger endpoint (`end` is reserved in Lean). -/
def Region.end_ (r : Region) : Nat := max r.a r.b

/-- Sublime `Region.contains(point)`: `begin() <= point <= end()`, inclusive. -/
def Region.contains (r : Region) (pos : Nat) : Bool :=
  r.begin ≤ pos && pos ≤ r.end_

/-- Sublime `Region.empty()`: `a == b`. -/
def Region.isEmpty (r : Region) : Bool := r.a = r.b

/-- The parsed-abbreviation dict stored on a tracker: its raw text
(`abbr` key) and whether the `error` key is present. -/
structure Abbr where
  abbr : List Char
  hasError : Bool
deriving DecidableEq

/-- The `tracker.RegionTracker` state read by `abbreviation.py`:
tracked region, optional parsed abbreviation, forced flag, and the
length of the stripped leading prefix (`offset`). -/
structure RegionTracker where
  region : Region
  abbreviation : Option Abbr
  forced : Bool
  offset : Nat
deriving DecidableEq

/-- The result object of `emmet.extract_abbreviation`: fields `start`,
`end` and `location`. -/
structure ExtractedAbbr where
  start : Nat
  end_ : Nat
  location : Nat
deriving DecidableEq

/-- A Sublime view, reduced to what `abbreviation.py` reads from it:
the document text and whether the syntax at the caret is JSX-like
(`syntax.is_jsx(syntax.from_pos(view, pos))`). -/
structure View where
  text : List Char
  isJsx : Bool
deriving DecidableEq

/-- Sublime `view.substr(sublime.Region(a, b))` for `a ≤ b`: the characters in
`[a, b)`, clipped to the document. -/
def substr (text : List Char) (a b : Nat) : List Char :=
  (text.take b).drop a

/-- The backward walk of `should_stop_tracking` over trailing closing
brackets, translated from the loop

    while target_pos > start:
        if abbr[target_pos - start - 1] in pairs_end: target_pos -= 1
        else: break

`none` is the `IndexError` Python raises when `target_pos - start - 1`
is out of range for `abbr`. -/
def closer_walk (abbr : List Char) (start : Nat) : Nat → Option Nat
  | 0 => some 0
  | target + 1 =>
    if start < target + 1 then
      match abbr.get? (target + 1 - start - 1) with
      | none => none
      | some c =>
        if is_closer c then closer_walk abbr start target
        else some (target + 1)
    else some (target + 1)

/-- Function `should_stop_tracking(trk, pos)` from `src/abbreviation.py`.
`none` means the Python code raised (IndexError in the backward walk). -/
def should_stop_tracking (trk : RegionTracker) (pos : Nat) : Option Bool :=
  if trk.forced then
    -- Never reset forced abbreviation
    some false
  else
    match trk.abbreviation with
    | none => some true
    | some ab =>
      if ab.abbr.any is_line_break then
        -- Never allow new lines in auto-tracked abbreviation
        some true
      else if ab.hasError then
        if trk.region.end_ = pos then
          -- Last entered character is invalid
          some true
        else
          match closer_walk ab.abbr trk.region.begin trk.region.end_ with
          | none => none
          | some target => some (target = pos)
      else some false

/-- C1: a forced tracker is never auto-invalidated: `should_stop_tracking`
returns `false` for every caret position, whatever the abbreviation state. -/
theorem forced_tracker_never_stopped (trk : RegionTracker) (pos : Nat)
    (h : trk.forced = true) :
    should_stop_tracking trk pos = some false := by
  simp [should_stop_tracking, h]

/-- Witness for C1 at a concrete forced tracker with an invalid abbreviation. -/
theorem forced_tracker_never_stopped_witness :
    should_stop_tracking
      ⟨⟨0, 3⟩, some ⟨['d', 'i', 'v'], true⟩, true, 0⟩ 3 = some false :=
  forced_tracker_never_stopped ⟨⟨0, 3⟩, some ⟨['d', 'i', 'v'], true⟩, true, 0⟩ 3 rfl

/-- The length of the maximal run of trailing closing-bracket characters
of a string: the spec's "walk backward from the region's end while each
character is a closing bracket". -/
def trailing_closers (s : List Char) : Nat :=
  (s.reverse.takeWhile is_closer).length

/-- The stop-tracking decision as the spec's §4.3 decision table words it,
for a non-forced tracker. -/
def stop_spec (trk : RegionTracker) (pos : Nat) : Bool :=
  match trk.abbreviation with
  | none => true
  | some ab =>
    if ab.abbr.any is_line_break then true
    else if ab.hasError then
      pos = trk.region.end_ || pos = trk.region.end_ - trailing_closers ab.abbr
    else false

theorem length_takeWhile_le (p : Char → Bool) (l : List Char) :
    (l.takeWhile p).length ≤ l.length := by
  induction l with
  | nil => simp
  | cons c l ih =>
    rw [List.takeWhile_cons]
    by_cases h : p c
    · simp only [h, if_true, List.length_cons]
      omega
    · simp [h]

theorem trailing_closers_le (s : List Char) : trailing_closers s ≤ s.length := by
  have := length_takeWhile_le is_closer s.reverse
  simpa [trailing_closers] using this

theorem trailing_closers_concat (s : List Char) (c : Char) :
    trailing_closers (s ++ [c]) =
      if is_closer c then trailing_closers s + 1 else 0 := by
  by_cases h : is_closer c <;>
    simp [trailing_closers, List.reverse_append, List.takeWhile_cons, h]

theorem closer_walk_self (abbr : List Char) (start : Nat) :
    closer_walk abbr start start = some start := by
  cases start with
  | zero => rfl
  | succ m =>
    simp only [closer_walk]
    rw [if_neg (by omega)]

/-- The backward walk, when the indexed string has at least `n` characters,
never raises and lands `trailing_closers` places before `start + n`. -/
theorem closer_walk_eq (abbr : List Char) (start : Nat) :
    ∀ n : Nat, n ≤ abbr.length →
      closer_walk abbr start (start + n) =
        some (start + n - trailing_closers (abbr.take n)) := by
  intro n
  induction n with
  | zero =>
    intro _
    simp only [Nat.add_zero, List.take_zero]
    have h0 : trailing_closers [] = 0 := rfl
    rw [h0, Nat.sub_zero, closer_walk_self]
  | succ n ih =>
    intro hn
    have hlt : n < abbr.length := by omega
    obtain ⟨c, hc⟩ : ∃ c, abbr.get? n = some c := by
      simp [List.get?_eq_getElem?, List.getElem?_eq_getElem hlt]
    have htake : abbr.take (n + 1) = abbr.take n ++ [c] := by
      rw [List.take_succ]
      simp only [List.get?_eq_getElem?] at hc
      simp [hc]
    have hstep : start + (n + 1) = (start + n) + 1 := by omega
    rw [hstep]
    simp only [closer_walk]
    rw [if_pos (show start < start + n + 1 by omega)]
    have hidx2 : start + n + 1 - start - 1 = n := by omega
    rw [hidx2]
    simp only [hc]
    by_cases hcl : is_closer c
    · rw [if_pos hcl, ih (by omega)]
      have htc : trailing_closers (abbr.take (n + 1)) =
          trailing_closers (abbr.take n) + 1 := by
        rw [htake, trailing_closers_concat, if_pos hcl]
      have hle : trailing_closers (abbr.take n) ≤ n := by
        have h1 := trailing_closers_le (abbr.take n)
        have hlen : (abbr.take n).length = n := by
          simp [List.length_take]
          omega
        omega
      rw [htc]
      congr 1
      omega
    · rw [if_neg hcl]
      have htc : trailing_closers (abbr.take (n + 1)) = 0 := by
        rw [htake, trailing_closers_concat, if_neg hcl]
      rw [htc, Nat.sub_zero]

/-- C2 (amended): for a non-forced tracker whose parsed abbreviation text
is exactly as long as its region (no stripped prefix), `should_stop_tracking`
returns (without raising) exactly the spec's decision: stop iff the
abbreviation is absent or holds a line break, or it is invalid and the
caret sits at the region's end or at the start of the maximal run of
trailing closing brackets. -/
theorem should_stop_tracking_spec (trk : RegionTracker) (pos : Nat)
    (hf : trk.forced = false)
    (hlen : ∀ ab, trk.abbreviation = some ab →
      ab.abbr.length = trk.region.end_ - trk.region.begin) :
    should_stop_tracking trk pos = some (stop_spec trk pos) := by
  cases hab : trk.abbreviation with
  | none => simp [should_stop_tracking, stop_spec, hf, hab]
  | some ab =>
    by_cases hbr : ab.abbr.any is_line_break
    · simp [should_stop_tracking, stop_spec, hf, hab, hbr]
    · by_cases herr : ab.hasError
      · by_cases hend : trk.region.end_ = pos
        · simp [should_stop_tracking, stop_spec, hf, hab, hbr, herr, hend]
        · have hblt : trk.region.begin ≤ trk.region.end_ :=
            (min_le_left _ _).trans (le_max_left _ _)
          have hl := hlen ab hab
          have hwalk := closer_walk_eq ab.abbr trk.region.begin
            (trk.region.end_ - trk.region.begin) (by omega)
          rw [Nat.add_sub_cancel' hblt] at hwalk
          have htake : ab.abbr.take (trk.region.end_ - trk.region.begin) =
              ab.abbr := by
            rw [← hl, List.take_length]
          rw [htake] at hwalk
          simp only [should_stop_tracking, stop_spec, hf, hab, hbr, herr, hend,
            hwalk, Bool.false_eq_true, if_false, if_true, Option.some.injEq]
          have h1 : (decide (pos = trk.region.end_)) = false := by
            simp only [decide_eq_false_iff_not]
            omega
          rw [h1, Bool.false_or, decide_eq_decide]
          exact eq_comm
      · simp [should_stop_tracking, stop_spec, hf, hab, hbr, herr]

/-- Counterexample for C2 as stated: a non-forced JSX-style tracker with
region `[0,3)` but a two-character invalid abbreviation (`offset = 1`),
caret at 1 (neither the region's end nor the end of a closer walk): the
claim says `should_stop_tracking` returns `false`, but the code raises an
`IndexError` (modelled as `none`) instead of returning. -/
theorem should_stop_tracking_claim_cex :
    should_stop_tracking ⟨⟨0, 3⟩, some ⟨['a', 'b'], true⟩, false, 1⟩ 1 ≠
      some false := by
  decide

/-- Witness for C2's amended theorem at a concrete invalid tracker
`div)` with one trailing closer and the caret just before it. -/
theorem should_stop_tracking_spec_witness :
    should_stop_tracking ⟨⟨0, 4⟩, some ⟨['d', 'i', 'v', ')'], true⟩, false, 0⟩ 3 =
      some (stop_spec ⟨⟨0, 4⟩, some ⟨['d', 'i', 'v', ')'], true⟩, false, 0⟩ 3) :=
  should_stop_tracking_spec ⟨⟨0, 4⟩, some ⟨['d', 'i', 'v', ')'], true⟩, false, 0⟩ 3
    rfl (by intro ab hab; cases hab; rfl)

/-- C3: `should_stop_tracking` raises an `IndexError` (modelled as `none`)
on a reachable JSX-prefixed tracker whose parsed abbreviation text is one
character shorter than its region (`offset = 1`): region `[0,2)` holding
`/+`, parsed abbreviation `+` with a parse error, caret at position 1. -/
theorem should_stop_tracking_index_error :
    should_stop_tracking ⟨⟨0, 2⟩, some ⟨['+'], true⟩, false, 1⟩ 1 = none := by
  decide

/-- Modelled from the spec: `tracker.start_tracking` (module `tracker` is
not under `src/`), §4.1 `start`: creates a new tracker with the given span,
forced flag and prefix offset, replacing any tracker registered for the
document; its parsed abbreviation state is recomputed separately, so it is
unset here. -/
def start_tracking (start end_ : Nat) (forced : Bool) (offset : Nat) :
    RegionTracker :=
  { region := ⟨start, end_⟩, abbreviation := none, forced := forced,
    offset := offset }

/-- The regex `re_word_bound = ^[\s>;"\']?[a-zA-Z.#!@\[\(]$` applied to the
at-most-two-character prefix string: either a single abbreviation-start
character, or a word-boundary character followed by one. -/
def re_word_bound (s : List Char) : Bool :=
  match s with
  | [c] => is_abbr_start c
  | [b, c] => is_word_bound_char b && is_abbr_start c
  | _ => false

/-- The start/offset decision of `start_abbreviation_tracking`: in JSX,
require the prefix to be exactly `JSX_PREFIX` followed by a JSX
abbreviation-start character (`start = pos - 2`, `offset = len(JSX_PREFIX)
= 1`); otherwise require `re_word_bound` on the prefix (`start = pos - 1`,
`offset = 0`).  `none` is the source's `start = -1` (do not track). -/
def track_start_offset (view : View) (pos : Nat) (pfx : List Char) :
    Option (Nat × Nat) :=
  if view.isJsx then
    match pfx with
    | [c0, c1] =>
      if c0 = jsxMarker && is_jsx_abbr_start c1 then some (pos - 2, 1)
      else none
    | _ => none
  else if re_word_bound pfx then some (pos - 1, 0) else none

/-- The end-position computation of `start_abbreviation_tracking`: if the
last prefix character is an opening bracket and the character after the
caret (`view.substr(Region(pos, min(pos + 1, view.size())))`) is its
matching closer, the region's end swallows it (`end += 1`). -/
def track_end (view : View) (pos : Nat) (pfx : List Char) : Nat :=
  match pfx.getLast? with
  | some lastCh =>
    match pairClose lastCh with
    | some closer =>
      if substr view.text pos (min (pos + 1) view.text.length) = [closer]
      then pos + 1 else pos
    | none => pos
  | none => pos

/-- Function `start_abbreviation_tracking(view, pos)` from `src/abbreviation.py`:
reads the two characters before `pos`
(`view.substr(Region(max(0, pos - 2), pos))`), decides whether to track
via `track_start_offset`, computes the region's end via `track_end` and
starts a non-forced tracker. -/
def start_abbreviation_tracking (view : View) (pos : Nat) :
    Option RegionTracker :=
  let pfx := substr view.text (pos - 2) pos
  match track_start_offset view pos pfx with
  | none => none
  | some (start, offset) =>
    some (start_tracking start (track_end view pos pfx) false offset)

/-- The claim's JSX start condition: the two characters immediately before
`pos` are exactly the JSX prefix marker and a JSX abbreviation-start
character. -/
def jsx_start_cond (text : List Char) (pos : Nat) : Prop :=
  2 ≤ pos ∧ text.get? (pos - 2) = some jsxMarker ∧
    ∃ c, text.get? (pos - 1) = some c ∧ is_jsx_abbr_start c = true

/-- The claim's non-JSX start condition: an abbreviation-start character
immediately before `pos`, preceded by a word-boundary character or by
the start of the text. -/
def word_bound_cond (text : List Char) (pos : Nat) : Prop :=
  (pos = 1 ∧ ∃ c, text.get? 0 = some c ∧ is_abbr_start c = true) ∨
    (2 ≤ pos ∧ ∃ c0 c1, text.get? (pos - 2) = some c0 ∧
      text.get? (pos - 1) = some c1 ∧
      is_word_bound_char c0 = true ∧ is_abbr_start c1 = true)

/-- The claim's bracket-swallow condition: the character immediately
before the caret is an opening bracket and the character immediately
after the caret is its matching closer. -/
def swallow_cond (text : List Char) (pos : Nat) : Bool :=
  match text.get? (pos - 1) with
  | some c =>
    match pairClose c with
    | some closer => text.get? pos = some closer
    | none => false
  | none => false

theorem substr_get? (text : List Char) (a b i : Nat) :
    (substr text a b).get? i = if a + i < b then text.get? (a + i) else none := by
  simp only [substr, List.get?_eq_getElem?, List.getElem?_drop,
    List.getElem?_take]

theorem substr_length (text : List Char) (a b : Nat) :
    (substr text a b).length = min b text.length - a := by
  simp [substr]

theorem substr_pfx_len (text : List Char) (pos : Nat) (hp : pos ≤ text.length) :
    (substr text (pos - 2) pos).length = min pos 2 := by
  rw [substr_length, Nat.min_eq_left hp]
  omega

theorem substr_pfx_two (text : List Char) (pos : Nat) (h2 : 2 ≤ pos)
    (hp : pos ≤ text.length) :
    ∃ c0 c1, text.get? (pos - 2) = some c0 ∧ text.get? (pos - 1) = some c1 ∧
      substr text (pos - 2) pos = [c0, c1] := by
  have hl : (substr text (pos - 2) pos).length = 2 := by
    rw [substr_pfx_len text pos hp]
    omega
  obtain ⟨c0, c1, hc⟩ := List.length_eq_two.mp hl
  refine ⟨c0, c1, ?_, ?_, hc⟩
  · have h := substr_get? text (pos - 2) pos 0
    rw [hc, if_pos (show pos - 2 + 0 < pos by omega), Nat.add_zero] at h
    exact h.symm
  · have h := substr_get? text (pos - 2) pos 1
    rw [hc, if_pos (show pos - 2 + 1 < pos by omega),
      show pos - 2 + 1 = pos - 1 by omega] at h
    exact h.symm

theorem substr_pfx_one (text : List Char) (hp : 1 ≤ text.length) :
    ∃ c, text.get? 0 = some c ∧ substr text 0 1 = [c] := by
  have hl : (substr text 0 1).length = 1 := by
    rw [substr_length, Nat.min_eq_left hp]
  obtain ⟨c, hc⟩ := List.length_eq_one.mp hl
  refine ⟨c, ?_, hc⟩
  have h := substr_get? text 0 1 0
  rw [hc, if_pos (by omega)] at h
  exact h.symm

theorem substr_next_char (text : List Char) (pos : Nat) (cl : Char) :
    substr text pos (min (pos + 1) text.length) = [cl] ↔
      text.get? pos = some cl := by
  constructor
  · intro h
    have hg := substr_get? text pos (min (pos + 1) text.length) 0
    rw [h] at hg
    by_cases hlt : pos + 0 < min (pos + 1) text.length
    · rw [if_pos hlt, Nat.add_zero] at hg
      exact hg.symm
    · rw [if_neg hlt] at hg
      exact absurd hg.symm (by simp)
  · intro h
    obtain ⟨hlt, -⟩ := List.getElem?_eq_some_iff.mp
      ((List.get?_eq_getElem? text pos) ▸ h)
    have hm : min (pos + 1) text.length = pos + 1 := by omega
    have hl : (substr text pos (min (pos + 1) text.length)).length = 1 := by
      rw [substr_length, hm, Nat.min_eq_left (by omega)]
      omega
    obtain ⟨c, hc⟩ := List.length_eq_one.mp hl
    have hg := substr_get? text pos (min (pos + 1) text.length) 0
    rw [hc, hm, if_pos (by omega), Nat.add_zero, h] at hg
    have hcc : c = cl := by simpa using hg
    rw [hc, hcc]

theorem track_end_ge (view : View) (pos : Nat) (pfx : List Char) :
    pos ≤ track_end view pos pfx := by
  cases hL : pfx.getLast? with
  | none => simp [track_end, hL]
  | some c =>
    cases hP : pairClose c with
    | none => simp [track_end, hL, hP]
    | some closer =>
      simp only [track_end, hL, hP]
      split
      · omega
      · omega

/-- C4: in a JSX-like dialect, `start_abbreviation_tracking` creates a
tracker exactly when the two characters before `pos` are the JSX prefix
marker followed by a JSX abbreviation-start character, and the created
tracker's region begins at `pos - 2` with `offset = 1` (the marker's
length). -/
theorem jsx_start_tracking_spec (view : View) (pos : Nat)
    (hj : view.isJsx = true) (hp : pos ≤ view.text.length) :
    ((start_abbreviation_tracking view pos).isSome ↔
      jsx_start_cond view.text pos) ∧
    ∀ t, start_abbreviation_tracking view pos = some t →
      t.region.begin = pos - 2 ∧ t.offset = 1 := by
  by_cases h2 : 2 ≤ pos
  · obtain ⟨c0, c1, h0, h1, hc⟩ := substr_pfx_two view.text pos h2 hp
    by_cases hcond : (c0 = jsxMarker && is_jsx_abbr_start c1) = true
    · have hf : start_abbreviation_tracking view pos =
          some (start_tracking (pos - 2) (track_end view pos [c0, c1])
            false 1) := by
        simp [start_abbreviation_tracking, track_start_offset, hj, hc, hcond]
      obtain ⟨hm, hst⟩ : c0 = jsxMarker ∧ is_jsx_abbr_start c1 = true := by
        simpa using hcond
      constructor
      · rw [hf]
        simp only [Option.isSome_some, true_iff]
        refine ⟨h2, ?_, c1, h1, hst⟩
        rw [h0, hm]
      · intro t ht
        rw [hf] at ht
        cases ht
        constructor
        · have hge : pos ≤ track_end view pos [c0, c1] :=
            track_end_ge view pos [c0, c1]
          simp only [start_tracking, Region.begin]
          exact Nat.min_eq_left (by omega)
        · rfl
    · have hf : start_abbreviation_tracking view pos = none := by
        simp [start_abbreviation_tracking, track_start_offset, hj, hc, hcond]
      constructor
      · rw [hf]
        simp only [Option.isSome_none, Bool.false_eq_true, false_iff]
        rintro ⟨-, hm, c, hc1, hstart⟩
        rw [h0] at hm
        rw [h1] at hc1
        injection hm with hm'
        injection hc1 with hc1'
        subst hm'
        subst hc1'
        exact hcond (by simp [hstart])
      · intro t ht
        rw [hf] at ht
        exact absurd ht (by simp)
  · have hf : start_abbreviation_tracking view pos = none := by
      interval_cases pos
      · simp [start_abbreviation_tracking, track_start_offset, hj, substr]
      · obtain ⟨c, hc0, hc⟩ := substr_pfx_one view.text (by omega)
        have h12 : (1 : Nat) - 2 = 0 := by omega
        simp [start_abbreviation_tracking, track_start_offset, hj, h12, hc]
    constructor
    · rw [hf]
      simp only [Option.isSome_none, Bool.false_eq_true, false_iff]
      rintro ⟨h2', -⟩
      omega
    · intro t ht
      rw [hf] at ht
      exact absurd ht (by simp)

/-- C5: outside JSX, `start_abbreviation_tracking` creates a tracker
exactly when an abbreviation-start character sits immediately before
`pos`, preceded by a word-boundary character or the start of text; the
created region begins at `pos - 1`; in particular a lone `d` typed at
document start (pos 1) yields a tracker with region `[0, 1)`. -/
theorem word_bound_start_tracking_spec (view : View) (pos : Nat)
    (hj : view.isJsx = false) (hp : pos ≤ view.text.length) :
    ((start_abbreviation_tracking view pos).isSome ↔
      word_bound_cond view.text pos) ∧
    (∀ t, start_abbreviation_tracking view pos = some t →
      t.region.begin = pos - 1) ∧
    start_abbreviation_tracking ⟨['d'], false⟩ 1 =
      some (start_tracking 0 1 false 0) := by
  refine ⟨?_, ?_, by decide⟩
  · rcases Nat.lt_or_ge pos 1 with h0 | h1
    · have hpz : pos = 0 := by omega
      subst hpz
      have hpfx : substr view.text (0 - 2) 0 = [] := by
        simp [substr]
      simp [start_abbreviation_tracking, track_start_offset, hj, hpfx,
        re_word_bound, word_bound_cond]
    · rcases Nat.lt_or_ge pos 2 with h12 | h2
      · have hp1 : pos = 1 := by omega
        subst hp1
        obtain ⟨c, hc0, hc⟩ := substr_pfx_one view.text hp
        have h12' : (1 : Nat) - 2 = 0 := rfl
        by_cases hab : is_abbr_start c = true
        · have hf : start_abbreviation_tracking view 1 =
              some (start_tracking 0 (track_end view 1 [c]) false 0) := by
            simp [start_abbreviation_tracking, track_start_offset, hj, h12',
              hc, re_word_bound, hab]
          rw [hf]
          simp only [Option.isSome_some, true_iff]
          exact Or.inl ⟨rfl, c, hc0, hab⟩
        · have hf : start_abbreviation_tracking view 1 = none := by
            simp [start_abbreviation_tracking, track_start_offset, hj, h12',
              hc, re_word_bound, hab]
          rw [hf]
          simp only [Option.isSome_none, Bool.false_eq_true, false_iff]
          rintro (⟨-, c', hc0', hab'⟩ | ⟨h2', -⟩)
          · rw [hc0] at hc0'
            injection hc0' with he
            subst he
            exact hab hab'
          · omega
      · obtain ⟨c0, c1, h0, h1', hc⟩ := substr_pfx_two view.text pos h2 hp
        by_cases hrb : (is_word_bound_char c0 && is_abbr_start c1) = true
        · have hf : start_abbreviation_tracking view pos =
              some (start_tracking (pos - 1) (track_end view pos [c0, c1])
                false 0) := by
            simp [start_abbreviation_tracking, track_start_offset, hj, hc,
              re_word_bound, hrb]
          rw [hf]
          simp only [Option.isSome_some, true_iff]
          obtain ⟨hw, ha⟩ : is_word_bound_char c0 = true ∧
              is_abbr_start c1 = true := by simpa using hrb
          exact Or.inr ⟨h2, c0, c1, h0, h1', hw, ha⟩
        · have hf : start_abbreviation_tracking view pos = none := by
            simp [start_abbreviation_tracking, track_start_offset, hj, hc,
              re_word_bound, hrb]
          rw [hf]
          simp only [Option.isSome_none, Bool.false_eq_true, false_iff]
          rintro (⟨hp1, -⟩ | ⟨-, c0', c1', h0', h1'', hw, ha⟩)
          · omega
          · rw [h0] at h0'
            rw [h1'] at h1''
            injection h0' with e0
            injection h1'' with e1
            subst e0
            subst e1
            exact hrb (by simp [hw, ha])
  · intro t ht
    by_cases hrb : re_word_bound (substr view.text (pos - 2) pos) = true
    · have hf : start_abbreviation_tracking view pos =
          some (start_tracking (pos - 1)
            (track_end view pos (substr view.text (pos - 2) pos)) false 0) := by
        simp [start_abbreviation_tracking, track_start_offset, hj, hrb]
      rw [hf] at ht
      cases ht
      have hge := track_end_ge view pos (substr view.text (pos - 2) pos)
      simp only [start_tracking, Region.begin]
      exact Nat.min_eq_left (by omega)
    · have hf : start_abbreviation_tracking view pos = none := by
        simp [start_abbreviation_tracking, track_start_offset, hj, hrb]
      rw [hf] at ht
      exact absurd ht (by simp)

/-- Witness for C4: in JSX, typing `/` then `d` (pos 2) starts a tracker
with region beginning at 0 and offset 1. -/
theorem jsx_start_tracking_spec_witness :
    ((start_abbreviation_tracking ⟨['/', 'd'], true⟩ 2).isSome ↔
      jsx_start_cond ['/', 'd'] 2) ∧
    ∀ t, start_abbreviation_tracking ⟨['/', 'd'], true⟩ 2 = some t →
      t.region.begin = 2 - 2 ∧ t.offset = 1 :=
  jsx_start_tracking_spec ⟨['/', 'd'], true⟩ 2 rfl (by decide)

/-- Witness for C5 at the claim's concrete scenario: the single character
`d` at document start. -/
theorem word_bound_start_tracking_spec_witness :
    ((start_abbreviation_tracking ⟨['d'], false⟩ 1).isSome ↔
      word_bound_cond ['d'] 1) ∧
    (∀ t, start_abbreviation_tracking ⟨['d'], false⟩ 1 = some t →
      t.region.begin = 1 - 1) ∧
    start_abbreviation_tracking ⟨['d'], false⟩ 1 =
      some (start_tracking 0 1 false 0) :=
  word_bound_start_tracking_spec ⟨['d'], false⟩ 1 rfl (by decide)

theorem track_start_offset_some (view : View) (pos : Nat) (pfx : List Char)
    (s o : Nat) (h : track_start_offset view pos pfx = some (s, o)) :
    s ≤ pos ∧ pfx ≠ [] := by
  unfold track_start_offset at h
  by_cases hj : view.isJsx = true
  · rw [if_pos hj] at h
    cases pfx with
    | nil => simp at h
    | cons a l =>
      cases l with
      | nil => simp at h
      | cons b l2 =>
        cases l2 with
        | cons x l3 => simp at h
        | nil =>
          by_cases hcond : (a = jsxMarker && is_jsx_abbr_start b) = true
          · simp only [hcond, if_true, Option.some.injEq, Prod.mk.injEq] at h
            exact ⟨by omega, by simp⟩
          · simp [hcond] at h
  · rw [if_neg hj] at h
    split at h
    · rename_i hrb
      simp only [Option.some.injEq, Prod.mk.injEq] at h
      refine ⟨by omega, ?_⟩
      intro hnil
      rw [hnil] at hrb
      simp [re_word_bound] at hrb
    · exact absurd h (by simp)

theorem pfx_getLast (text : List Char) (pos : Nat) (hp : pos ≤ text.length)
    (hne : substr text (pos - 2) pos ≠ []) :
    (substr text (pos - 2) pos).getLast? = text.get? (pos - 1) := by
  rcases Nat.lt_or_ge pos 1 with h0 | h1
  · have hpz : pos = 0 := by omega
    subst hpz
    exact absurd (by simp [substr]) hne
  · rcases Nat.lt_or_ge pos 2 with h12 | h2
    · have hp1 : pos = 1 := by omega
      subst hp1
      obtain ⟨c, hc0, hc⟩ := substr_pfx_one text hp
      have h12' : (1 : Nat) - 2 = 0 := rfl
      rw [h12', hc, hc0]
      rfl
    · obtain ⟨c0, c1, h0', h1', hc⟩ := substr_pfx_two text pos h2 hp
      rw [hc, h1']
      rfl

theorem track_end_eq_swallow (view : View) (pos : Nat) (pfx : List Char)
    (hL : pfx.getLast? = view.text.get? (pos - 1)) :
    track_end view pos pfx =
      if swallow_cond view.text pos then pos + 1 else pos := by
  unfold track_end swallow_cond
  rw [hL]
  cases hg : view.text.get? (pos - 1) with
  | none => rfl
  | some c =>
    cases hP : pairClose c with
    | none => simp [hP]
    | some closer =>
      simp only [hP]
      by_cases hnext : view.text.get? pos = some closer
      · have hnext2 : view.text[pos]? = some closer := by simpa using hnext
        rw [if_pos ((substr_next_char view.text pos closer).mpr hnext),
          if_pos (by simp [hnext2])]
      · have hnext2 : ¬ view.text[pos]? = some closer := by simpa using hnext
        rw [if_neg (fun hcontra =>
            hnext ((substr_next_char view.text pos closer).mp hcontra)),
          if_neg (by simp [hnext2])]

/-- C6: in both dialects, when a tracker is created, its region's end is
`pos + 1` exactly when the character before the caret is an opening
bracket whose matching closer sits right after the caret, and `pos`
otherwise. -/
theorem bracket_swallow_end (view : View) (pos : Nat) (t : RegionTracker)
    (hp : pos ≤ view.text.length)
    (ht : start_abbreviation_tracking view pos = some t) :
    t.region.end_ = if swallow_cond view.text pos then pos + 1 else pos := by
  cases hso : track_start_offset view pos (substr view.text (pos - 2) pos) with
  | none =>
    simp [start_abbreviation_tracking, hso] at ht
  | some so =>
    obtain ⟨s, o⟩ := so
    simp only [start_abbreviation_tracking, hso] at ht
    obtain ⟨hs, hne⟩ :=
      track_start_offset_some view pos (substr view.text (pos - 2) pos) s o hso
    have hL := pfx_getLast view.text pos hp hne
    have hte := track_end_eq_swallow view pos
      (substr view.text (pos - 2) pos) hL
    cases ht
    have hge := track_end_ge view pos (substr view.text (pos - 2) pos)
    have hmax : (start_tracking s
        (track_end view pos (substr view.text (pos - 2) pos)) false o).region.end_ =
        track_end view pos (substr view.text (pos - 2) pos) := by
      simp only [start_tracking, Region.end_]
      omega
    rw [hmax, hte]

/-- Witness for C6: a space then `(` typed with an auto-inserted `)`
after the caret; the created region's end swallows the closer. -/
theorem bracket_swallow_end_witness :
    (start_tracking 1 3 false 0).region.end_ =
      if swallow_cond [' ', '(', ')'] 2 then 2 + 1 else 2 :=
  bracket_swallow_end ⟨[' ', '(', ')'], false⟩ 2 (start_tracking 1 3 false 0)
    (by decide) (by decide)

/-- Function `suggest_abbreviation_tracker(view, pos)` from `src/abbreviation.py`,
with its external collaborators as inputs: `allow` is
`allow_tracking(view, pos)` (the `auto_mark` setting and activation-scope
check), `extract` the result of `emmet.extract_abbreviation(view, pos,
config)`, and `reg` the tracker registered for the view
(`tracker.get_tracker`).  Returns the registry after the call and the
returned tracker.  The registered tracker and the local `trk` variable
coincide after the stop step, here `trk0`. -/
def suggest_abbreviation_tracker (allow : Bool) (extract : Option ExtractedAbbr)
    (reg : Option RegionTracker) (pos : Nat) :
    Option RegionTracker × Option RegionTracker :=
  if !allow then (reg, none)
  else
    let trk0 : Option RegionTracker :=
      match reg with
      | some trk => if trk.region.contains pos then some trk else none
      | none => none
    match trk0 with
    | some _ => (trk0, none)
    | none =>
      match extract with
      | some e =>
        let t := start_tracking e.start e.end_ false (e.location - e.start)
        (some t, some t)
      | none => (trk0, none)

/-- Modelled from the spec: `utils.replace_with_snippet` (module `utils`
is not under `src/`): replaces the region's text with the snippet within
an edit transaction. -/
def replace_with_snippet (text : List Char) (r : Region)
    (snippet : List Char) : List Char :=
  text.take r.begin ++ snippet ++ text.drop r.end_

/-- Command `EmmetExpandAbbreviation.run` from `src/abbreviation.py`: `reg` is the
registered tracker, `caret` the primary caret, `snippet` the external
expansion result (`expand_abbreviation`).  Returns the document text and
the registry after the command. -/
def expand_run (text : List Char) (reg : Option RegionTracker) (caret : Nat)
    (snippet : List Char) : List Char × Option RegionTracker :=
  match reg with
  | none => (text, none)
  | some trk =>
    if trk.region.contains caret then
      let text' :=
        match trk.abbreviation with
        | some ab =>
          if !ab.hasError then replace_with_snippet text trk.region snippet
          else text
        | none => text
      (text', none)
    else (text, some trk)

/-- The new-tracker decision of `AbbreviationMarkerListener.on_modified`:
`handled` is the tracker returned by `tracker.handle_change`, `lastPos`
the recorded previous caret, `allow` is `allow_tracking(view, last_pos)`.
A new tracker is attempted only when no tracker survived the change and
`last_pos == pos - 1` (written overflow-free as `lp + 1 = pos`, both
being non-negative). -/
def on_modified_new_tracker (handled : Option RegionTracker)
    (lastPos : Option Nat) (allow : Bool) (view : View) (pos : Nat) :
    Option RegionTracker :=
  match handled with
  | some _ => none
  | none =>
    match lastPos with
    | none => none
    | some lp =>
      if lp + 1 = pos && allow then start_abbreviation_tracking view pos
      else none

/-- The tracker-creation step of `EmmetEnterAbbreviation.run` once any
previous tracker is stopped: start a forced tracker over the primary
selection; for a non-empty selection also show the preview and collapse
the selection to its end. -/
def enter_start (sel : Region) : Option RegionTracker × Bool × Region :=
  let t := start_tracking sel.begin sel.end_ true 0
  if sel.isEmpty then (some t, false, sel)
  else (some t, true, ⟨sel.end_, sel.end_⟩)

/-- Command `EmmetEnterAbbreviation.run` from `src/abbreviation.py`: `reg` is the
registered tracker, `sel` the primary selection.  Returns the registry
after the command, whether the preview was shown, and the selection after
the command.  The command first stops any tracker; a stopped forced
tracker makes it act as a toggle. -/
def enter_run (reg : Option RegionTracker) (sel : Region) :
    Option RegionTracker × Bool × Region :=
  match reg with
  | some trk =>
    if trk.forced then (none, false, sel)
    else enter_start sel
  | none => enter_start sel

/-- C7 (amended): provided tracking is allowed at `pos`, the suggestion
flow stops an active tracker that does not contain `pos`; if no tracker
then remains and extraction finds an abbreviation, a tracker spanning the
extracted range with `offset = location - start` is started and returned;
if extraction finds nothing, no tracker is created and none is returned. -/
theorem suggest_tracker_spec (allow : Bool) (extract : Option ExtractedAbbr)
    (reg : Option RegionTracker) (pos : Nat) (hallow : allow = true) :
    (∀ trk, reg = some trk → trk.region.contains pos = false →
      suggest_abbreviation_tracker allow extract reg pos =
        match extract with
        | some e =>
          (some (start_tracking e.start e.end_ false (e.location - e.start)),
           some (start_tracking e.start e.end_ false (e.location - e.start)))
        | none => (none, none)) ∧
    (reg = none → ∀ e, extract = some e →
      suggest_abbreviation_tracker allow extract reg pos =
        (some (start_tracking e.start e.end_ false (e.location - e.start)),
         some (start_tracking e.start e.end_ false (e.location - e.start)))) ∧
    (reg = none → extract = none →
      suggest_abbreviation_tracker allow extract reg pos = (none, none)) := by
  subst hallow
  refine ⟨?_, ?_, ?_⟩
  · intro trk hreg hcont
    subst hreg
    cases extract with
    | none => simp [suggest_abbreviation_tracker, hcont]
    | some e => simp [suggest_abbreviation_tracker, hcont]
  · intro hreg e hext
    subst hreg
    subst hext
    simp [suggest_abbreviation_tracker]
  · intro hreg hext
    subst hreg
    subst hext
    simp [suggest_abbreviation_tracker]

/-- Counterexample for C7 as stated: when tracking is not allowed at the
caret (`allow_tracking` false, e.g. `auto_mark` disabled), the function
returns before the stop step, so an active tracker whose region does not
contain `pos` is NOT stopped, contradicting the claim's first sentence. -/
theorem suggest_tracker_claim_cex :
    (suggest_abbreviation_tracker false none
      (some (start_tracking 0 1 false 0)) 5).1 =
      some (start_tracking 0 1 false 0) := by
  decide

/-- Witness for C7's amended theorem: a tracker over `[0, 1]` with the
caret at 9 and an extraction result spanning `[2, 5)` located at 3. -/
theorem suggest_tracker_spec_witness :
    (∀ trk, some (start_tracking 0 1 false 0) = some trk →
      trk.region.contains 9 = false →
      suggest_abbreviation_tracker true (some ⟨2, 5, 3⟩)
        (some (start_tracking 0 1 false 0)) 9 =
        match some (⟨2, 5, 3⟩ : ExtractedAbbr) with
        | some e =>
          (some (start_tracking e.start e.end_ false (e.location - e.start)),
           some (start_tracking e.start e.end_ false (e.location - e.start)))
        | none => (none, none)) ∧
    (some (start_tracking 0 1 false 0) = none →
      ∀ e, some (⟨2, 5, 3⟩ : ExtractedAbbr) = some e →
      suggest_abbreviation_tracker true (some ⟨2, 5, 3⟩)
        (some (start_tracking 0 1 false 0)) 9 =
        (some (start_tracking e.start e.end_ false (e.location - e.start)),
         some (start_tracking e.start e.end_ false (e.location - e.start)))) ∧
    (some (start_tracking 0 1 false 0) = none →
      some (⟨2, 5, 3⟩ : ExtractedAbbr) = none →
      suggest_abbreviation_tracker true (some ⟨2, 5, 3⟩)
        (some (start_tracking 0 1 false 0)) 9 = (none, none)) :=
  suggest_tracker_spec true (some ⟨2, 5, 3⟩)
    (some (start_tracking 0 1 false 0)) 9 rfl

/-- C8: whenever the expand command runs with a tracker whose region
contains the caret, the tracker is torn down in every case; the text is
replaced by the snippet exactly when the abbreviation exists without
error, and is left unchanged when it is absent or invalid. -/
theorem expand_run_spec (text : List Char) (trk : RegionTracker)
    (caret : Nat) (snippet : List Char)
    (hc : trk.region.contains caret = true) :
    (expand_run text (some trk) caret snippet).2 = none ∧
    (∀ ab, trk.abbreviation = some ab → ab.hasError = false →
      (expand_run text (some trk) caret snippet).1 =
        replace_with_snippet text trk.region snippet) ∧
    ((trk.abbreviation = none ∨
        ∃ ab, trk.abbreviation = some ab ∧ ab.hasError = true) →
      (expand_run text (some trk) caret snippet).1 = text) := by
  refine ⟨?_, ?_, ?_⟩
  · cases hab : trk.abbreviation with
    | none => simp [expand_run, hc, hab]
    | some ab =>
      by_cases herr : ab.hasError
      · simp [expand_run, hc, hab, herr]
      · simp [expand_run, hc, hab, herr]
  · intro ab hab herr
    simp [expand_run, hc, hab, herr]
  · rintro (hab | ⟨ab, hab, herr⟩)
    · simp [expand_run, hc, hab]
    · simp [expand_run, hc, hab, herr]

/-- Witness for C8 at a tracker over `div` (valid) and one check of the
kept-text side is provided by the same instantiation's third conjunct. -/
theorem expand_run_spec_witness :
    (expand_run ['d', 'i', 'v'] (some ⟨⟨0, 3⟩, some ⟨['d', 'i', 'v'], false⟩,
      false, 0⟩) 3 ['<', '>']).2 = none ∧
    (∀ ab, (some (⟨['d', 'i', 'v'], false⟩ : Abbr)) = some ab →
      ab.hasError = false →
      (expand_run ['d', 'i', 'v'] (some ⟨⟨0, 3⟩, some ⟨['d', 'i', 'v'], false⟩,
        false, 0⟩) 3 ['<', '>']).1 =
        replace_with_snippet ['d', 'i', 'v'] ⟨0, 3⟩ ['<', '>']) ∧
    (((some (⟨['d', 'i', 'v'], false⟩ : Abbr)) = none ∨
        ∃ ab, (some (⟨['d', 'i', 'v'], false⟩ : Abbr)) = some ab ∧
          ab.hasError = true) →
      (expand_run ['d', 'i', 'v'] (some ⟨⟨0, 3⟩, some ⟨['d', 'i', 'v'], false⟩,
        false, 0⟩) 3 ['<', '>']).1 = ['d', 'i', 'v']) :=
  expand_run_spec ['d', 'i', 'v'] ⟨⟨0, 3⟩, some ⟨['d', 'i', 'v'], false⟩,
    false, 0⟩ 3 ['<', '>'] (by decide)

/-- C9: the `on_modified` handler starts a new automatic tracking session
only when a previous caret position was recorded and equals the new caret
position minus one (a single-character insertion at the previous caret). -/
theorem on_modified_single_char_only (handled : Option RegionTracker)
    (lastPos : Option Nat) (allow : Bool) (view : View) (pos : Nat)
    (t : RegionTracker)
    (h : on_modified_new_tracker handled lastPos allow view pos = some t) :
    ∃ lp, lastPos = some lp ∧ lp + 1 = pos := by
  cases handled with
  | some trk => exact absurd h (by simp [on_modified_new_tracker])
  | none =>
    cases lastPos with
    | none => exact absurd h (by simp [on_modified_new_tracker])
    | some lp =>
      by_cases hcond : (lp + 1 = pos && allow) = true
      · obtain ⟨h1, -⟩ : lp + 1 = pos ∧ allow = true := by simpa using hcond
        exact ⟨lp, rfl, h1⟩
      · rw [on_modified_new_tracker, if_neg hcond] at h
        exact absurd h (by simp)

/-- Witness for C9: typing a single `d` at position 0 (caret moves to 1)
with a recorded previous caret of 0 starts a tracker. -/
theorem on_modified_single_char_only_witness :
    ∃ lp, (some 0 : Option Nat) = some lp ∧ lp + 1 = 1 :=
  on_modified_single_char_only none (some 0) true ⟨['d'], false⟩ 1
    (start_tracking 0 1 false 0) (by decide)

/-- C10: the enter-abbreviation command acts as a toggle when the stopped
tracker was forced (stops it, creates nothing); otherwise it starts a
forced tracker spanning the primary selection, and for a non-empty
selection shows the preview and collapses the selection to its end. -/
theorem enter_abbreviation_spec (reg : Option RegionTracker) (sel : Region) :
    (∀ trk, reg = some trk → trk.forced = true →
      enter_run reg sel = (none, false, sel)) ∧
    ((reg = none ∨ ∃ trk, reg = some trk ∧ trk.forced = false) →
      (enter_run reg sel).1 = some (start_tracking sel.begin sel.end_ true 0) ∧
      (sel.isEmpty = false →
        (enter_run reg sel).2.1 = true ∧
        (enter_run reg sel).2.2 = ⟨sel.end_, sel.end_⟩)) := by
  constructor
  · intro trk hreg hforced
    subst hreg
    simp [enter_run, hforced]
  · rintro (hreg | ⟨trk, hreg, hforced⟩)
    · subst hreg
      by_cases hemp : sel.isEmpty
      · simp [enter_run, enter_start, hemp]
      · simp [enter_run, enter_start, hemp]
    · subst hreg
      by_cases hemp : sel.isEmpty
      · simp [enter_run, enter_start, hforced, hemp]
      · simp [enter_run, enter_start, hforced, hemp]

/-- Witness for C10 with no prior tracker and the non-empty selection
`[0, 3]`: instantiates the command's behavior theorem. -/
theorem enter_abbreviation_spec_witness :
    (∀ trk, (none : Option RegionTracker) = some trk → trk.forced = true →
      enter_run none ⟨0, 3⟩ = (none, false, ⟨0, 3⟩)) ∧
    (((none : Option RegionTracker) = none ∨
        ∃ trk, (none : Option RegionTracker) = some trk ∧ trk.forced = false) →
      (enter_run none ⟨0, 3⟩).1 =
        some (start_tracking (Region.mk 0 3).begin (Region.mk 0 3).end_ true 0) ∧
      ((Region.mk 0 3).isEmpty = false →
        (enter_run none ⟨0, 3⟩).2.1 = true ∧
        (enter_run none ⟨0, 3⟩).2.2 =
          ⟨(Region.mk 0 3).end_, (Region.mk 0 3).end_⟩)) :=
  enter_abbreviation_spec none ⟨0, 3⟩
